import Mathlib

/-!
# Verification of the cah-sql-quick transform-and-load pipeline

This file gives a shallow embedding in Lean 4 of the core of the
`cah-sql-quick` repository (the `insertData` routine and its data model,
`src/interfaces.ts`), together with theorems settling the specification
claims about it.

Modelling conventions:
* JavaScript strings are modelled by Lean `String` (sequences of Unicode
  code points).
* JavaScript numbers appearing as indices / ids are modelled by `Int`
  (the code only compares and renders them); `forEach` positions are `Nat`.
* Template-literal rendering of a `forEach` index (`${indexInDeckArray}`)
  is decimal rendering of a natural number, modelled by `natDecimal`.
* The `uuid` npm package's `v5(name, namespace)` is modelled faithfully:
  SHA-1 over (namespace bytes ++ UTF-8 bytes of the name), first 16 bytes
  with the version / variant nibbles patched, rendered as lower-case hex
  with dashes.
* Machine 32-bit arithmetic inside SHA-1 is `Nat` arithmetic reduced
  `% 2 ^ 32`.
* The knex driver is a boundary collaborator: each row / batch insert
  attempt is resolved by an oracle `Nat → Option DBError` giving the
  driver's outcome for the k-th attempt (`none` = resolved successfully,
  `some e` = rejected with error `e`).  The transaction primitive commits
  the accumulated state on success and restores the initial state on any
  thrown error, which is knex's documented `db.transaction` contract.
-/

set_option maxRecDepth 100000

/-! ## Decimal rendering of natural numbers (JS `${n}` for a forEach index) -/

/-- The decimal digits of `n`, most significant first, with explicit fuel
(structural recursion, so that the kernel can evaluate it). -/
def natDigitsAux (fuel n : Nat) : List Nat :=
  match fuel with
  | 0 => []
  | fuel + 1 => if n < 10 then [n] else natDigitsAux fuel (n / 10) ++ [n % 10]

/-- The decimal digits of `n`, most significant first. -/
def natDigits (n : Nat) : List Nat :=
  natDigitsAux (n + 1) n

/-- Value of a big-endian digit list. -/
def digitsVal (ds : List Nat) : Nat :=
  ds.foldl (fun a d => a * 10 + d) 0

/-- Decimal rendering of a natural number, as produced by a JS template
literal for a non-negative integer. -/
def natDecimal (n : Nat) : String :=
  ⟨(natDigits n).map Nat.digitChar⟩

theorem natDigitsAux_ne_nil (fuel n : Nat) (h : 0 < fuel) :
    natDigitsAux fuel n ≠ [] := by
  match fuel with
  | f + 1 => unfold natDigitsAux; split <;> simp

theorem natDigits_ne_nil (n : Nat) : natDigits n ≠ [] :=
  natDigitsAux_ne_nil _ _ (by omega)

theorem natDigitsAux_lt_ten :
    ∀ fuel n, n < 10 ^ fuel → ∀ d ∈ natDigitsAux fuel n, d < 10 := by
  intro fuel
  induction fuel with
  | zero => intro n hn d hd; simp [natDigitsAux] at hd
  | succ f ih =>
    intro n hn d hd
    unfold natDigitsAux at hd
    by_cases h10 : n < 10
    · rw [if_pos h10] at hd; simp at hd; omega
    · rw [if_neg h10] at hd
      rcases List.mem_append.1 hd with h1 | h1
      · refine ih (n / 10) ?_ d h1
        have : (10:Nat) ^ (f + 1) = 10 ^ f * 10 := by ring
        exact Nat.div_lt_of_lt_mul (by omega)
      · simp at h1; omega

theorem lt_ten_pow_succ_self (n : Nat) : n < 10 ^ (n + 1) := by
  have h1 : n < 10 ^ n := Nat.lt_pow_self (by omega) n
  have h2 : (10:Nat) ^ n ≤ 10 ^ (n + 1) := Nat.pow_le_pow_right (by omega) (by omega)
  omega

theorem natDigits_lt_ten (n : Nat) : ∀ d ∈ natDigits n, d < 10 :=
  natDigitsAux_lt_ten _ _ (lt_ten_pow_succ_self n)

theorem digitsVal_append_singleton (ds : List Nat) (d : Nat) :
    digitsVal (ds ++ [d]) = 10 * digitsVal ds + d := by
  simp [digitsVal, List.foldl_append]; omega

theorem digitsVal_natDigitsAux :
    ∀ fuel n, n < 10 ^ fuel → digitsVal (natDigitsAux fuel n) = n := by
  intro fuel
  induction fuel with
  | zero => intro n hn; simp at hn; simp [natDigitsAux, digitsVal, hn]
  | succ f ih =>
    intro n hn
    unfold natDigitsAux
    by_cases h10 : n < 10
    · rw [if_pos h10]; simp [digitsVal]
    · rw [if_neg h10, digitsVal_append_singleton, ih]
      · omega
      · have : (10:Nat) ^ (f + 1) = 10 ^ f * 10 := by ring
        exact Nat.div_lt_of_lt_mul (by omega)

theorem digitsVal_natDigits (n : Nat) : digitsVal (natDigits n) = n :=
  digitsVal_natDigitsAux _ _ (lt_ten_pow_succ_self n)

theorem natDigits_injective : Function.Injective natDigits := by
  intro a b h
  have := digitsVal_natDigits a
  rw [h, digitsVal_natDigits] at this
  omega

/-! ## Chunking (knex `batchInsert` chunk size, SHA-1 block splitting) -/

/-- Chunk splitting with explicit fuel (structural recursion, so that the
kernel can evaluate it). -/
def chunksOfAux (k : Nat) (fuel : Nat) (l : List α) : List (List α) :=
  match fuel with
  | 0 => []
  | fuel + 1 =>
    if l.isEmpty || k == 0 then [] else l.take k :: chunksOfAux k fuel (l.drop k)

/-- Split a list into consecutive chunks of size `k` (the last chunk may be
shorter).  With `k = 0` or an empty list the result is empty. -/
def chunksOf (k : Nat) (l : List α) : List (List α) :=
  chunksOfAux k (l.length + 1) l

theorem chunksOf_nil (k : Nat) : chunksOf k ([] : List α) = [] := by
  simp [chunksOf, chunksOfAux]

theorem flatten_chunksOfAux (k : Nat) (hk : k ≠ 0) :
    ∀ fuel (l : List α), l.length < fuel → (chunksOfAux k fuel l).flatten = l := by
  intro fuel
  induction fuel with
  | zero => intro l hl; omega
  | succ f ih =>
    intro l hl
    unfold chunksOfAux
    by_cases he : l.isEmpty || k == 0
    · rw [if_pos he]
      simp only [Bool.or_eq_true, List.isEmpty_iff, beq_iff_eq] at he
      rcases he with he | he
      · simp [he]
      · exact absurd he hk
    · rw [if_neg he]
      simp only [Bool.or_eq_true, List.isEmpty_iff, beq_iff_eq, not_or] at he
      have hcons : l ≠ [] := he.1
      have hlen : (l.drop k).length < f := by
        simp only [List.length_drop]
        have : l.length ≠ 0 := by
          intro h0; exact hcons (List.eq_nil_of_length_eq_zero h0)
        have : k ≠ 0 := he.2
        omega
      simp [ih (l.drop k) hlen]

theorem flatten_chunksOf (k : Nat) (hk : k ≠ 0) (l : List α) :
    (chunksOf k l).flatten = l :=
  flatten_chunksOfAux k hk _ l (by omega)

/-! ## SHA-1 (the hash underlying the `uuid` package's `v5`) -/

/-- 32-bit left rotation on a word `w < 2 ^ 32`. -/
def rotl32 (n w : Nat) : Nat :=
  (w * 2 ^ n) % 2 ^ 32 ||| w / 2 ^ (32 - n)

/-- SHA-1 padding: append `0x80`, zero bytes to 56 mod 64, then the 64-bit
big-endian bit length. -/
def sha1Pad (msg : List Nat) : List Nat :=
  let bitLen := 8 * msg.length
  let padZeros := (119 - msg.length % 64) % 64
  msg ++ 0x80 :: List.replicate padZeros 0 ++
    (List.range 8).map (fun i => bitLen / 2 ^ (8 * (7 - i)) % 256)

/-- The 16 initial 32-bit words of a 64-byte block (big-endian). -/
def blockWords (block : List Nat) : List Nat :=
  (List.range 16).map (fun i =>
    block.getD (4 * i) 0 * 2 ^ 24 + block.getD (4 * i + 1) 0 * 2 ^ 16 +
    block.getD (4 * i + 2) 0 * 2 ^ 8 + block.getD (4 * i + 3) 0)

/-- Extend the 16 block words to the 80-entry message schedule. -/
def scheduleWords (block : List Nat) : List Nat :=
  (List.range 64).foldl
    (fun ws _ =>
      ws ++ [rotl32 1 (ws.getD (ws.length - 3) 0 ^^^ ws.getD (ws.length - 8) 0 ^^^
                       ws.getD (ws.length - 14) 0 ^^^ ws.getD (ws.length - 16) 0)])
    (blockWords block)

/-- The SHA-1 round function, by round index. -/
def sha1F (i b c d : Nat) : Nat :=
  if i < 20 then (b &&& c) ||| ((b ^^^ 0xFFFFFFFF) &&& d)
  else if i < 40 then b ^^^ c ^^^ d
  else if i < 60 then (b &&& c) ||| (b &&& d) ||| (c &&& d)
  else b ^^^ c ^^^ d

/-- The SHA-1 round constant, by round index. -/
def sha1K (i : Nat) : Nat :=
  if i < 20 then 0x5A827999
  else if i < 40 then 0x6ED9EBA1
  else if i < 60 then 0x8F1BBCDC
  else 0xCA62C1D6

/-- Compress one 64-byte block into the running 5-word state. -/
def sha1Compress (h : Nat × Nat × Nat × Nat × Nat) (block : List Nat) :
    Nat × Nat × Nat × Nat × Nat :=
  let ⟨h0, h1, h2, h3, h4⟩ := h
  let final := (scheduleWords block).enum.foldl
    (fun (st : Nat × Nat × Nat × Nat × Nat) (iw : Nat × Nat) =>
      let ⟨a, b, c, d, e⟩ := st
      let temp := (rotl32 5 a + sha1F iw.1 b c d + e + sha1K iw.1 + iw.2) % 2 ^ 32
      (temp, a, rotl32 30 b, c, d))
    (h0, h1, h2, h3, h4)
  ((h0 + final.1) % 2 ^ 32, (h1 + final.2.1) % 2 ^ 32, (h2 + final.2.2.1) % 2 ^ 32,
   (h3 + final.2.2.2.1) % 2 ^ 32, (h4 + final.2.2.2.2) % 2 ^ 32)

/-- SHA-1 digest of a byte list, as a single 160-bit natural number. -/
def sha1Nat (msg : List Nat) : Nat :=
  let h := (chunksOf 64 (sha1Pad msg)).foldl sha1Compress
    (0x67452301, 0xEFCDAB89, 0x98BADCFE, 0x10325476, 0xC3D2E1F0)
  ((((h.1 % 2 ^ 32) * 2 ^ 32 + h.2.1 % 2 ^ 32) * 2 ^ 32 + h.2.2.1 % 2 ^ 32) * 2 ^ 32 +
    h.2.2.2.1 % 2 ^ 32) * 2 ^ 32 + h.2.2.2.2 % 2 ^ 32

theorem digest_word_bound {x y p q : Nat} (hx : x < p) (hy : y < q) :
    x * q + y < p * q := by
  have h1 : x * q + y < x * q + q := Nat.add_lt_add_left hy _
  have h2 : x * q + q = (x + 1) * q := by ring
  have h3 : (x + 1) * q ≤ p * q := Nat.mul_le_mul_right q hx
  omega

theorem sha1Nat_lt (msg : List Nat) : sha1Nat msg < 2 ^ 160 := by
  unfold sha1Nat
  have M : (0:Nat) < 2 ^ 32 := by positivity
  have h1 := Nat.mod_lt ((chunksOf 64 (sha1Pad msg)).foldl sha1Compress
    (0x67452301, 0xEFCDAB89, 0x98BADCFE, 0x10325476, 0xC3D2E1F0)).1 M
  have h2 := Nat.mod_lt ((chunksOf 64 (sha1Pad msg)).foldl sha1Compress
    (0x67452301, 0xEFCDAB89, 0x98BADCFE, 0x10325476, 0xC3D2E1F0)).2.1 M
  have h3 := Nat.mod_lt ((chunksOf 64 (sha1Pad msg)).foldl sha1Compress
    (0x67452301, 0xEFCDAB89, 0x98BADCFE, 0x10325476, 0xC3D2E1F0)).2.2.1 M
  have h4 := Nat.mod_lt ((chunksOf 64 (sha1Pad msg)).foldl sha1Compress
    (0x67452301, 0xEFCDAB89, 0x98BADCFE, 0x10325476, 0xC3D2E1F0)).2.2.2.1 M
  have h5 := Nat.mod_lt ((chunksOf 64 (sha1Pad msg)).foldl sha1Compress
    (0x67452301, 0xEFCDAB89, 0x98BADCFE, 0x10325476, 0xC3D2E1F0)).2.2.2.2 M
  have s2 := digest_word_bound h1 h2
  have s3 := digest_word_bound s2 h3
  have s4 := digest_word_bound s3 h4
  have s5 := digest_word_bound s4 h5
  calc _ < 2 ^ 32 * 2 ^ 32 * 2 ^ 32 * 2 ^ 32 * 2 ^ 32 := s5
  _ = 2 ^ 160 := by norm_num

/-! ## UTF-8 encoding (JS strings are hashed as their UTF-8 bytes) -/

/-- UTF-8 encoding of a single code point, as byte values. -/
def utf8EncodeCharNat (c : Char) : List Nat :=
  let n := c.toNat
  if n < 0x80 then [n]
  else if n < 0x800 then [0xC0 ||| n >>> 6, 0x80 ||| n &&& 0x3F]
  else if n < 0x10000 then
    [0xE0 ||| n >>> 12, 0x80 ||| (n >>> 6) &&& 0x3F, 0x80 ||| n &&& 0x3F]
  else
    [0xF0 ||| n >>> 18, 0x80 ||| (n >>> 12) &&& 0x3F, 0x80 ||| (n >>> 6) &&& 0x3F,
     0x80 ||| n &&& 0x3F]

/-- UTF-8 bytes of a string. -/
def utf8Bytes (s : String) : List Nat :=
  s.data.flatMap utf8EncodeCharNat

/-! ## UUID version 5 (model of the `uuid` npm package's `v5`) -/

/-- Value of a hexadecimal digit character (as in the uuid parser). -/
def hexVal (c : Char) : Nat :=
  if '0' ≤ c ∧ c ≤ '9' then c.toNat - 48
  else if 'a' ≤ c ∧ c ≤ 'f' then c.toNat - 87
  else if 'A' ≤ c ∧ c ≤ 'F' then c.toNat - 55
  else 0

/-- Read consecutive pairs of hex characters as bytes. -/
def hexPairs (cs : List Char) : List Nat :=
  match cs with
  | c1 :: c2 :: rest => (hexVal c1 * 16 + hexVal c2) :: hexPairs rest
  | _ => []

/-- Parse a textual UUID into its 16 bytes, skipping dashes (the uuid
package's `parse`). -/
def parseUuidBytes (s : String) : List Nat :=
  hexPairs (s.data.filter (· ≠ '-'))

/-- Two lower-case hex characters of a byte. -/
def byteHex (b : Nat) : List Char :=
  [Nat.digitChar (b / 16 % 16), Nat.digitChar (b % 16)]

/-- Render a v5 UUID from a 160-bit SHA-1 digest: take the first 16 bytes,
patch the version nibble to 5 and the variant bits to RFC 4122, and write
lower-case hex in the 8-4-4-4-12 layout (the uuid package's `stringify`). -/
def uuidFromDigest (dg : Nat) : String :=
  let b := fun i => dg / 2 ^ (8 * (19 - i)) % 256
  let b6 := b 6 % 16 + 0x50
  let b8 := b 8 % 64 + 0x80
  ⟨byteHex (b 0) ++ byteHex (b 1) ++ byteHex (b 2) ++ byteHex (b 3) ++
   '-' :: (byteHex (b 4) ++ byteHex (b 5) ++
   '-' :: (byteHex b6 ++ byteHex (b 7) ++
   '-' :: (byteHex b8 ++ byteHex (b 9) ++
   '-' :: (byteHex (b 10) ++ byteHex (b 11) ++ byteHex (b 12) ++
           byteHex (b 13) ++ byteHex (b 14) ++ byteHex (b 15)))))⟩

/-- The byte input hashed by `v5`: namespace bytes then the UTF-8 bytes of
the name. -/
def uuidv5Input (name namespace' : String) : List Nat :=
  parseUuidBytes namespace' ++ utf8Bytes name

/-- `v5(name, namespace)` of the `uuid` npm package. -/
def uuidv5 (name namespace' : String) : String :=
  uuidFromDigest (sha1Nat (uuidv5Input name namespace'))

/-! ## Content model (`src/interfaces.ts`)

The TypeScript interfaces declare `white: number[]` etc., but the JSON
document is cast unchecked (`JSON.parse(fileContent) as CardData`), and
`insertData` guards each list with `x && Array.isArray(x)` before use.  We
therefore model each guarded list field as an `Option`: `none` stands for
an absent / non-array value (which fails the guard), `some l` for an
actual array. -/

/-- A black card of the shared pool (`BlackCardData`). -/
structure BlackCardData where
  text : String
  pick : Int
deriving DecidableEq, Repr

/-- One deck's metadata entry (`DeckData`). -/
structure DeckData where
  id : Int
  name : String
  official : Bool
  white : Option (List Int)
  black : Option (List Int)
deriving DecidableEq, Repr

/-- The whole input document (`CardData`).  `metadata` is the JSON object,
as its key/value pairs in iteration order. -/
structure CardData where
  white : Option (List String)
  black : Option (List BlackCardData)
  metadata : List (String × DeckData)
deriving DecidableEq, Repr

/-- A destination `Cards` row (the `Card` type of `@canarado-dev/cah-types`).
`pick = none` models SQL `null`. -/
structure Card where
  id : String
  deckId : Int
  text : String
  pick : Option Int
deriving DecidableEq, Repr

/-- A destination `Decks` row. -/
structure DeckRow where
  id : Int
  name : String
  official : Bool
deriving DecidableEq, Repr

/-! ## Identifier derivation (`insertData`, lines 224-225 and 242-243) -/

/-- The hard-coded namespace constant `CARD_ID_NAMESPACE`. -/
def CARD_ID_NAMESPACE : String := "8a903250-8b77-43b2-802d-6f1e261704fd"

/-- `substring(0, 7)` of the card text: the first 7 characters, fewer if
the text is shorter. -/
def textPrefix7 (s : String) : String := s.take 7

/-- The template literal
`` `${deckName}_${tag}_${indexInDeckArray}_${text.substring(0, 7)}` ``
(with `tag` instantiated to the literal `"white"` or `"black"` at the two
call sites). -/
def uniqueNameString (deckName tag : String) (indexInDeckArray : Nat)
    (text : String) : String :=
  deckName ++ "_" ++ tag ++ "_" ++ natDecimal indexInDeckArray ++ "_" ++ textPrefix7 text

/-- `uuidv5(uniqueNameString, CARD_ID_NAMESPACE)`: the card identifier as
computed by the source. -/
def cardIdOf (deckName tag : String) (indexInDeckArray : Nat) (text : String) : String :=
  uuidv5 (uniqueNameString deckName tag indexInDeckArray text) CARD_ID_NAMESPACE

/-! ## Spec-side identifier deriver (for the refinement claim C1)

The specification (§4.2) names a pure function
`deriveCardId(deckName, color, positionInDeck, text)`.  No function of
that name exists in the source (the derivation is inlined at the two call
sites), so the following definitions are written from the spec's words, to
be compared with the source-side `cardIdOf`. -/

/-- A card color, per the spec's `"white" | "black"`. -/
inductive Color where
  | white
  | black
deriving DecidableEq, Repr

/-- The spec's color tag. -/
def colorTag : Color → String
  | .white => "white"
  | .black => "black"

/-- Modelled from the spec (§4.2 Identifier Deriver, a component the source
inlines rather than naming): join deck name, color tag, position within the
deck's own index list, and the first 7 characters of the text with the
fixed delimiter `"_"`, then take the version-5 UUID under the fixed
namespace constant. -/
def deriveCardId (deckName : String) (color : Color) (positionInDeck : Nat)
    (text : String) : String :=
  uuidv5 (String.intercalate "_"
    [deckName, colorTag color, natDecimal positionInDeck, text.take 7])
    CARD_ID_NAMESPACE

/-! ## Warnings and the transformer (`insertData`, lines 214-256) -/

/-- The non-fatal `console.warn` diagnostics of one run. -/
inductive Warning where
  /-- Metadata key / `deck.id` mismatch (line 180). -/
  | keyMismatch (key : String) (deckId : Int)
  /-- Deck row already exists, insertion skipped (line 199). -/
  | rowConflict (deckId : Int) (deckName : String)
  /-- Out-of-range pool index, card skipped (lines 233 and 251);
  `maxIndex` is `pool.length - 1` as printed. -/
  | invalidIndex (deckName : String) (deckId : Int) (color : String)
      (index : Int) (maxIndex : Int)
deriving DecidableEq, Repr

/-- The white-list block of the card-preparation loop (lines 220-236): for
each entry of `deckDetails.white` (with its `forEach` position), an
in-bounds pool index emits a `Card` with `pick = null`, an out-of-bounds
one only warns.  If either the deck's list or the shared pool is absent or
not an array, the guard on line 220 skips the block. -/
def prepareWhiteCards (deckName : String) (deckId : Int)
    (whiteList : Option (List Int)) (whitePool : Option (List String)) :
    List Card × List Warning :=
  match whiteList, whitePool with
  | some l, some pool =>
    (l.enum.filterMap (fun ji =>
       if 0 ≤ ji.2 ∧ ji.2 < (pool.length : Int) then
         some { id := cardIdOf deckName "white" ji.1 (pool.getD ji.2.toNat "")
                deckId := deckId
                text := pool.getD ji.2.toNat ""
                pick := none }
       else none),
     l.filterMap (fun i =>
       if 0 ≤ i ∧ i < (pool.length : Int) then none
       else some (.invalidIndex deckName deckId "white" i ((pool.length : Int) - 1))))
  | _, _ => ([], [])

/-- The black-list block (lines 238-254), symmetric to the white one but
taking text and pick from the black pool entry. -/
def prepareBlackCards (deckName : String) (deckId : Int)
    (blackList : Option (List Int)) (blackPool : Option (List BlackCardData)) :
    List Card × List Warning :=
  match blackList, blackPool with
  | some l, some pool =>
    (l.enum.filterMap (fun ji =>
       if 0 ≤ ji.2 ∧ ji.2 < (pool.length : Int) then
         some { id := cardIdOf deckName "black" ji.1
                  (pool.getD ji.2.toNat ⟨"", 0⟩).text
                deckId := deckId
                text := (pool.getD ji.2.toNat ⟨"", 0⟩).text
                pick := some (pool.getD ji.2.toNat ⟨"", 0⟩).pick }
       else none),
     l.filterMap (fun i =>
       if 0 ≤ i ∧ i < (pool.length : Int) then none
       else some (.invalidIndex deckName deckId "black" i ((pool.length : Int) - 1))))
  | _, _ => ([], [])

/-- Cards and warnings contributed by one metadata entry: the white block
then the black block, pushed onto `allCardsToInsert` in that order. -/
def prepareDeckCards (dataWhite : Option (List String))
    (dataBlack : Option (List BlackCardData)) (kv : String × DeckData) :
    List Card × List Warning :=
  let w := prepareWhiteCards kv.2.name kv.2.id kv.2.white dataWhite
  let b := prepareBlackCards kv.2.name kv.2.id kv.2.black dataBlack
  (w.1 ++ b.1, w.2 ++ b.2)

/-- `allCardsToInsert` (and the card-preparation warnings): decks in
metadata iteration order, each contributing its white block then its black
block. -/
def prepareAllCards (data : CardData) : List Card × List Warning :=
  ((data.metadata.map (prepareDeckCards data.white data.black)).map Prod.fst |>.flatten,
   (data.metadata.map (prepareDeckCards data.white data.black)).map Prod.snd |>.flatten)

/-! ## Driver errors and conflict classification (`insertData`, lines 194-204) -/

/-- The shape of a driver error as inspected by the code: its `code`
property (a string, if any) and its `number` property (if any). -/
structure DBError where
  code : Option String
  number : Option Int
deriving DecidableEq, Repr

/-- The conflict classification of lines 195-198:
`error.code === 'SQLITE_CONSTRAINT' || error.code === '23505' ||
(error.number === 2627 || error.number === 2601)`. -/
def isConflictError (e : DBError) : Bool :=
  e.code == some "SQLITE_CONSTRAINT" || e.code == some "23505" ||
    (e.number == some 2627 || e.number == some 2601)

/-! ## JS `parseInt(s, 10)` (the metadata-key check, line 179) -/

/-- The JS whitespace characters skipped by `parseInt`. -/
def jsWhitespace (c : Char) : Bool :=
  c = ' ' ∨ c = '\t' ∨ c = '\n' ∨ c = '\r' ∨ c = '\x0b' ∨ c = '\x0c' ∨ c = ' '

/-- Value of a maximal run of leading decimal digits; `none` if there is
none (`parseInt` returns `NaN`). -/
def leadingDigitsVal (cs : List Char) : Option Nat :=
  let ds := cs.takeWhile Char.isDigit
  if ds.isEmpty then none
  else some (ds.foldl (fun a c => a * 10 + (c.toNat - 48)) 0)

/-- JS `parseInt(s, 10)`: skip leading whitespace, read an optional sign
and then leading decimal digits; `none` models `NaN`.  (`NaN === x` is
false for every `x`, which the mismatch check on line 179 relies on.) -/
def parseIntJS (s : String) : Option Int :=
  match s.data.dropWhile jsWhitespace with
  | '-' :: rest => (leadingDigitsVal rest).map (fun n => -(n : Int))
  | '+' :: rest => (leadingDigitsVal rest).map (fun n => (n : Int))
  | cs => (leadingDigitsVal cs).map (fun n => (n : Int))

/-! ## Load coordinator (`insertData`, lines 172-266)

The deck-insertion loop (lines 175-209) synchronously, per metadata entry:
warns on a key / id mismatch, then issues the row insert, attaching a
handler that downgrades a conflict-classified rejection to a warning and
rethrows anything else.  All attempts are issued before `Promise.all` is
awaited, so every attempt runs even when one of them fails fatally; the
mismatch warnings (synchronous) all precede the conflict warnings
(asynchronous).  `Promise.all` rejects with the first fatal rejection. -/

/-- The `Decks` row built from one metadata entry (lines 186-190). -/
def deckRowOf (d : DeckData) : DeckRow :=
  { id := d.id, name := d.name, official := d.official }

/-- An insert statement issued against the transaction. -/
inductive Event where
  /-- One deck row insert attempt (line 185). -/
  | deckInsert (row : DeckRow)
  /-- One `batchInsert` chunk of card rows (line 259). -/
  | cardBatchInsert (rows : List Card)
deriving DecidableEq, Repr

def Event.isDeckInsert : Event → Bool
  | .deckInsert _ => true
  | .cardBatchInsert _ => false

def Event.isCardBatchInsert : Event → Bool
  | .deckInsert _ => false
  | .cardBatchInsert _ => true

/-- The key / id mismatch warnings (line 179-181), in loop order. -/
def mismatchWarnings (metadata : List (String × DeckData)) : List Warning :=
  metadata.filterMap (fun kv =>
    if parseIntJS kv.1 = some kv.2.id then none
    else some (.keyMismatch kv.1 kv.2.id))

/-- The deck insert attempts, one per metadata entry, in loop order. -/
def deckAttemptEvents (metadata : List (String × DeckData)) : List Event :=
  metadata.map (fun kv => .deckInsert (deckRowOf kv.2))

/-- The first non-conflict driver rejection among the deck insert
attempts, if any: the error `Promise.all` rejects with. -/
def deckFatalError (metadata : List (String × DeckData))
    (deckRes : Nat → Option DBError) : Option DBError :=
  (metadata.enum.filterMap (fun kkv =>
    match deckRes kkv.1 with
    | some e => if isConflictError e then none else some e
    | none => none)).head?

/-- The deck rows whose insert attempt the driver resolved successfully. -/
def deckRowsInserted (metadata : List (String × DeckData))
    (deckRes : Nat → Option DBError) : List DeckRow :=
  metadata.enum.filterMap (fun kkv =>
    match deckRes kkv.1 with
    | none => some (deckRowOf kkv.2.2)
    | some _ => none)

/-- The "already exists, skipping" warnings (line 199), one per
conflict-classified rejection. -/
def conflictWarnings (metadata : List (String × DeckData))
    (deckRes : Nat → Option DBError) : List Warning :=
  metadata.enum.filterMap (fun kkv =>
    match deckRes kkv.1 with
    | some e => if isConflictError e then
        some (.rowConflict kkv.2.2.id kkv.2.2.name) else none
    | none => none)

/-- The deck-insertion phase (lines 173-209): on a fatal rejection the
awaited `Promise.all` throws that error out of the transaction callback;
otherwise it yields the inserted rows, the warnings (mismatch warnings
before conflict warnings) and the attempts issued. -/
def deckPhase (metadata : List (String × DeckData))
    (deckRes : Nat → Option DBError) :
    Except DBError (List DeckRow × List Warning × List Event) :=
  match deckFatalError metadata deckRes with
  | some e => .error e
  | none => .ok (deckRowsInserted metadata deckRes,
      mismatchWarnings metadata ++ conflictWarnings metadata deckRes,
      deckAttemptEvents metadata)

/-- The card-insertion phase: `trx.batchInsert(table, allCardsToInsert, 50)`
(line 259) inserts the cards in successive chunks of 50, awaiting each; a
rejected chunk throws (there is no catch handler), so later chunks are not
issued.  With zero cards the `if` on line 257 skips the call, which
coincides with inserting an empty chunk list. -/
def cardBatchStep (batchRes : Nat → Option DBError)
    (acc : Except DBError (List Card × List Event)) (kchunk : Nat × List Card) :
    Except DBError (List Card × List Event) :=
  match acc with
  | .error e => .error e
  | .ok (rows, evs) =>
    match batchRes kchunk.1 with
    | some e => .error e
    | none => .ok (rows ++ kchunk.2, evs ++ [.cardBatchInsert kchunk.2])

def cardPhase (cards : List Card) (batchRes : Nat → Option DBError) :
    Except DBError (List Card × List Event) :=
  (chunksOf 50 cards).enum.foldl (cardBatchStep batchRes) (.ok ([], []))

/-- The destination state visible to later runs. -/
structure DB where
  decks : List DeckRow
  cards : List Card
deriving DecidableEq, Repr

/-- The body of the `db.transaction` callback (lines 172-264): deck phase,
then card preparation, then card phase.  Returns the resulting state, the
warnings and the issued statements, or the first error thrown. -/
def insertDataTrx (init : DB) (data : CardData)
    (deckRes batchRes : Nat → Option DBError) :
    Except DBError (DB × List Warning × List Event) := do
  let (deckRows, deckWs, deckEvs) ← deckPhase data.metadata deckRes
  let (allCardsToInsert, prepWs) := prepareAllCards data
  let (cardRows, cardEvs) ← cardPhase allCardsToInsert batchRes
  pure (⟨init.decks ++ deckRows, init.cards ++ cardRows⟩,
        deckWs ++ prepWs, deckEvs ++ cardEvs)

/-- `insertData`: the transaction primitive commits the accumulated state
on success and rolls every write of the run back on an error, leaving the
initial state. -/
def insertData (init : DB) (data : CardData)
    (deckRes batchRes : Nat → Option DBError) :
    DB × Except DBError (List Warning × List Event) :=
  match insertDataTrx init data deckRes batchRes with
  | .ok (db', ws, evs) => (db', .ok (ws, evs))
  | .error e => (init, .error e)

/-! ## Helper lemmas about the transformer -/

theorem filterMap_ite_some {α β : Type} (p : α → Prop) [DecidablePred p]
    (g : α → β) (l : List α) :
    l.filterMap (fun x => if p x then some (g x) else none) =
      (l.filter (fun x => decide (p x))).map g := by
  induction l with
  | nil => rfl
  | cons a l ih =>
    simp only [List.filterMap_cons, List.filter_cons]
    by_cases h : p a
    · simp [h, ih]
    · simp [h, ih]

theorem filterMap_ite_none {α β : Type} (p : α → Prop) [DecidablePred p]
    (g : α → β) (l : List α) :
    l.filterMap (fun x => if p x then none else some (g x)) =
      (l.filter (fun x => !decide (p x))).map g := by
  induction l with
  | nil => rfl
  | cons a l ih =>
    simp only [List.filterMap_cons, List.filter_cons]
    by_cases h : p a
    · simp [h, ih]
    · simp [h, ih]

theorem cardIdOf_white_eq_deriveCardId (n : String) (j : Nat) (t : String) :
    cardIdOf n "white" j t = deriveCardId n .white j t := by
  unfold cardIdOf deriveCardId uniqueNameString textPrefix7 colorTag
  congr 1

theorem cardIdOf_black_eq_deriveCardId (n : String) (j : Nat) (t : String) :
    cardIdOf n "black" j t = deriveCardId n .black j t := by
  unfold cardIdOf deriveCardId uniqueNameString textPrefix7 colorTag
  congr 1

/-! ## Claim C1 -/

/-- C1: every card the expansion emits carries exactly the identifier the
spec's Identifier Deriver prescribes: the version-5 UUID, under the fixed
hard-coded namespace constant, of deck name, color tag, the card's position
in the deck's own index list, and the first 7 characters of its text,
joined with the fixed delimiter `"_"`.  `deriveCardId` is written from the
spec's words; the left-hand sides are the source's two emission sites.
The derivation is the pure function `cardIdOf` of those four data alone, so
it returns the same value on every call. -/
theorem spec_C1_identifier_derivation :
    ∀ (deckName : String) (deckId : Int) (l : List Int) (pool : List String)
      (lb : List Int) (bpool : List BlackCardData),
      (prepareWhiteCards deckName deckId (some l) (some pool)).1 =
        l.enum.filterMap (fun ji =>
          if 0 ≤ ji.2 ∧ ji.2 < (pool.length : Int) then
            some { id := deriveCardId deckName .white ji.1 (pool.getD ji.2.toNat "")
                   deckId := deckId
                   text := pool.getD ji.2.toNat ""
                   pick := none }
          else none) ∧
      (prepareBlackCards deckName deckId (some lb) (some bpool)).1 =
        lb.enum.filterMap (fun ji =>
          if 0 ≤ ji.2 ∧ ji.2 < (bpool.length : Int) then
            some { id := deriveCardId deckName .black ji.1
                     (bpool.getD ji.2.toNat ⟨"", 0⟩).text
                   deckId := deckId
                   text := (bpool.getD ji.2.toNat ⟨"", 0⟩).text
                   pick := some (bpool.getD ji.2.toNat ⟨"", 0⟩).pick }
          else none) := by
  intro deckName deckId l pool lb bpool
  constructor
  · simp only [prepareWhiteCards]
    refine List.filterMap_congr (fun ji _ => ?_)
    rw [cardIdOf_white_eq_deriveCardId]
  · simp only [prepareBlackCards]
    refine List.filterMap_congr (fun ji _ => ?_)
    rw [cardIdOf_black_eq_deriveCardId]

/-! ## Claim C3 -/

/-- C3: the expansion emits a Card exactly for each index lying within
`[0, pool length)` — the emitted cards are, in order, the in-bounds
entries and the warnings are, in order, the out-of-bounds entries — and
with `whiteIndices = [0, 5]` against a 3-element white pool exactly one
card (for index 0) and one invalid-index warning (for index 5) come out.
The expansion is a total function, so no error can be raised. -/
theorem spec_C3_index_bounds :
    ∀ (deckName : String) (deckId : Int) (l : List Int) (pool : List String)
      (lb : List Int) (bpool : List BlackCardData),
      (prepareWhiteCards deckName deckId (some l) (some pool)).1 =
        ((l.enum.filter (fun ji => decide (0 ≤ ji.2 ∧ ji.2 < (pool.length : Int)))).map
          (fun ji => { id := cardIdOf deckName "white" ji.1 (pool.getD ji.2.toNat "")
                       deckId := deckId
                       text := pool.getD ji.2.toNat ""
                       pick := none })) ∧
      (prepareWhiteCards deckName deckId (some l) (some pool)).2 =
        ((l.filter (fun i => !decide (0 ≤ i ∧ i < (pool.length : Int)))).map
          (fun i => .invalidIndex deckName deckId "white" i ((pool.length : Int) - 1))) ∧
      (prepareBlackCards deckName deckId (some lb) (some bpool)).1 =
        ((lb.enum.filter (fun ji => decide (0 ≤ ji.2 ∧ ji.2 < (bpool.length : Int)))).map
          (fun ji => { id := cardIdOf deckName "black" ji.1
                         (bpool.getD ji.2.toNat ⟨"", 0⟩).text
                       deckId := deckId
                       text := (bpool.getD ji.2.toNat ⟨"", 0⟩).text
                       pick := some (bpool.getD ji.2.toNat ⟨"", 0⟩).pick })) ∧
      (prepareBlackCards deckName deckId (some lb) (some bpool)).2 =
        ((lb.filter (fun i => !decide (0 ≤ i ∧ i < (bpool.length : Int)))).map
          (fun i => .invalidIndex deckName deckId "black" i ((bpool.length : Int) - 1))) ∧
      (prepareWhiteCards deckName deckId (some [0, 5])
          (some ["a", "b", "c"])).1.length = 1 ∧
      (prepareWhiteCards deckName deckId (some [0, 5]) (some ["a", "b", "c"])).2 =
        [.invalidIndex deckName deckId "white" 5 2] := by
  intro deckName deckId l pool lb bpool
  refine ⟨?_, ?_, ?_, ?_, ?_, ?_⟩
  · simp only [prepareWhiteCards]
    exact filterMap_ite_some _ _ _
  · simp only [prepareWhiteCards]
    exact filterMap_ite_none _ _ _
  · simp only [prepareBlackCards]
    exact filterMap_ite_some _ _ _
  · simp only [prepareBlackCards]
    exact filterMap_ite_none _ _ _
  · rfl
  · rfl

/-! ## Claim C4 -/

theorem mem_prepareWhiteCards {n : String} {did : Int} {wl : Option (List Int)}
    {wp : Option (List String)} {c : Card}
    (hc : c ∈ (prepareWhiteCards n did wl wp).1) :
    c.pick = none ∧ ∃ pool i, wp = some pool ∧ 0 ≤ i ∧ i < (pool.length : Int) ∧
      c.text = pool.getD i.toNat "" := by
  cases wl with
  | none => simp [prepareWhiteCards] at hc
  | some l =>
    cases wp with
    | none => simp [prepareWhiteCards] at hc
    | some pool =>
      simp only [prepareWhiteCards] at hc
      obtain ⟨ji, _, hji⟩ := List.mem_filterMap.1 hc
      by_cases hb : 0 ≤ ji.2 ∧ ji.2 < (pool.length : Int)
      · rw [if_pos hb] at hji
        obtain rfl := Option.some_injective _ hji
        exact ⟨rfl, pool, ji.2, rfl, hb.1, hb.2, rfl⟩
      · rw [if_neg hb] at hji; exact absurd hji (by simp)

theorem mem_prepareBlackCards {n : String} {did : Int} {bl : Option (List Int)}
    {bp : Option (List BlackCardData)} {c : Card}
    (hc : c ∈ (prepareBlackCards n did bl bp).1) :
    ∃ pool bc, bp = some pool ∧ bc ∈ pool ∧ c.pick = some bc.pick ∧
      c.text = bc.text := by
  cases bl with
  | none => simp [prepareBlackCards] at hc
  | some l =>
    cases bp with
    | none => simp [prepareBlackCards] at hc
    | some pool =>
      simp only [prepareBlackCards] at hc
      obtain ⟨ji, _, hji⟩ := List.mem_filterMap.1 hc
      by_cases hb : 0 ≤ ji.2 ∧ ji.2 < (pool.length : Int)
      · rw [if_pos hb] at hji
        obtain rfl := Option.some_injective _ hji
        refine ⟨pool, pool.getD ji.2.toNat ⟨"", 0⟩, rfl, ?_, rfl, rfl⟩
        have hlt : ji.2.toNat < pool.length := by
          obtain ⟨hb1, hb2⟩ := hb
          omega
        rw [List.getD_eq_getElem pool ⟨"", 0⟩ hlt]
        exact List.getElem_mem hlt
      · rw [if_neg hb] at hji; exact absurd hji (by simp)

/-- C4: a card emitted from a white index has `pick = null` and text equal
to the white pool entry at an in-bounds index; a card emitted from a black
index carries the source black card's `pick` and `text`; and within a
deck's cards, `pick = null` holds exactly for the white-derived ones. -/
theorem spec_C4_color_pick :
    ∀ (dw : Option (List String)) (db : Option (List BlackCardData))
      (kv : String × DeckData) (c : Card),
      (c ∈ (prepareWhiteCards kv.2.name kv.2.id kv.2.white dw).1 →
        c.pick = none ∧ ∃ pool i, dw = some pool ∧ 0 ≤ i ∧ i < (pool.length : Int) ∧
          c.text = pool.getD i.toNat "") ∧
      (c ∈ (prepareBlackCards kv.2.name kv.2.id kv.2.black db).1 →
        ∃ pool bc, db = some pool ∧ bc ∈ pool ∧ c.pick = some bc.pick ∧
          c.text = bc.text) ∧
      (c ∈ (prepareDeckCards dw db kv).1 →
        (c.pick = none ↔ c ∈ (prepareWhiteCards kv.2.name kv.2.id kv.2.white dw).1)) := by
  intro dw db kv c
  refine ⟨fun hc => mem_prepareWhiteCards hc, fun hc => mem_prepareBlackCards hc, ?_⟩
  intro hc
  rcases List.mem_append.1 hc with hcw | hcb
  · exact ⟨fun _ => hcw, fun _ => (mem_prepareWhiteCards hcw).1⟩
  · obtain ⟨_, bc, _, _, hpick, _⟩ := mem_prepareBlackCards hcb
    constructor
    · intro hnone; rw [hpick] at hnone; exact absurd hnone (by simp)
    · intro hcw; exact (mem_prepareWhiteCards hcw).1

/-- Witness for C4, at the spec's end-to-end example deck: the white card
"Bananas" and the black card "___ is great." (pick 1). -/
theorem spec_C4_color_pick_witness :
    ((Card.mk "4f51cf3f-5178-5ae2-afeb-c895130e4cd7" 1 "Bananas" none).pick = none ∧
      ∃ pool i, (some ["Bananas", "A rock"] : Option (List String)) = some pool ∧
        0 ≤ i ∧ i < (pool.length : Int) ∧
        (Card.mk "4f51cf3f-5178-5ae2-afeb-c895130e4cd7" 1 "Bananas" none).text =
          pool.getD i.toNat "") ∧
    (∃ pool bc, (some [BlackCardData.mk "___ is great." 1] :
          Option (List BlackCardData)) = some pool ∧ bc ∈ pool ∧
        (Card.mk "e7aabee6-3153-599e-a409-f9994b0e4ade" 1 "___ is great."
          (some 1)).pick = some bc.pick ∧
        (Card.mk "e7aabee6-3153-599e-a409-f9994b0e4ade" 1 "___ is great."
          (some 1)).text = bc.text) := by
  constructor
  · exact (spec_C4_color_pick (some ["Bananas", "A rock"])
      (some [BlackCardData.mk "___ is great." 1])
      ("1", DeckData.mk 1 "Base" true (some [0, 1]) (some [0]))
      (Card.mk "4f51cf3f-5178-5ae2-afeb-c895130e4cd7" 1 "Bananas" none)).1
      (by decide)
  · exact ((spec_C4_color_pick (some ["Bananas", "A rock"])
      (some [BlackCardData.mk "___ is great." 1])
      ("1", DeckData.mk 1 "Base" true (some [0, 1]) (some [0]))
      (Card.mk "e7aabee6-3153-599e-a409-f9994b0e4ade" 1 "___ is great."
        (some 1))).2).1
      (by decide)

/-! ## Claim C10 -/

/-- C10: an absent / non-array index list or pool makes the corresponding
block emit no cards and no warnings and raise no error, while the other
list of the same deck and all other decks are still processed: a deck's
cards are always its white block followed by its black block, and the
whole expansion is the concatenation of the per-deck expansions. -/
theorem spec_C10_missing_lists :
    ∀ (deckName : String) (deckId : Int) (wl : Option (List Int))
      (wp : Option (List String)) (bl : Option (List Int))
      (bp : Option (List BlackCardData)) (dw : Option (List String))
      (db : Option (List BlackCardData)) (kv : String × DeckData)
      (pre post : List (String × DeckData)),
      ((wl = none ∨ wp = none) → prepareWhiteCards deckName deckId wl wp = ([], [])) ∧
      ((bl = none ∨ bp = none) → prepareBlackCards deckName deckId bl bp = ([], [])) ∧
      (prepareDeckCards dw db kv).1 =
        (prepareWhiteCards kv.2.name kv.2.id kv.2.white dw).1 ++
        (prepareBlackCards kv.2.name kv.2.id kv.2.black db).1 ∧
      prepareAllCards ⟨dw, db, pre ++ kv :: post⟩ =
        ((prepareAllCards ⟨dw, db, pre⟩).1 ++ (prepareDeckCards dw db kv).1 ++
            (prepareAllCards ⟨dw, db, post⟩).1,
         (prepareAllCards ⟨dw, db, pre⟩).2 ++ (prepareDeckCards dw db kv).2 ++
            (prepareAllCards ⟨dw, db, post⟩).2) := by
  intro deckName deckId wl wp bl bp dw db kv pre post
  refine ⟨?_, ?_, rfl, ?_⟩
  · rintro (rfl | rfl)
    · cases wp <;> rfl
    · cases wl <;> rfl
  · rintro (rfl | rfl)
    · cases bp <;> rfl
    · cases bl <;> rfl
  · simp [prepareAllCards, List.append_assoc]

/-- Witness for C10: a deck whose white list is absent and whose black
pool is absent emits nothing from either block. -/
theorem spec_C10_missing_lists_witness :
    prepareWhiteCards "Base" 1 none (some ["Bananas"]) = ([], []) ∧
    prepareBlackCards "Base" 1 (some [0]) none = ([], []) := by
  constructor
  · exact (spec_C10_missing_lists "Base" 1 none (some ["Bananas"]) (some [0]) none
      none none ("1", DeckData.mk 1 "Base" true none none) [] []).1 (Or.inl rfl)
  · exact (spec_C10_missing_lists "Base" 1 none (some ["Bananas"]) (some [0]) none
      none none ("1", DeckData.mk 1 "Base" true none none) [] []).2.1 (Or.inr rfl)

/-! ## Helper lemmas about the load coordinator -/

theorem mem_prepareWhiteCards_deckId {n : String} {did : Int} {wl : Option (List Int)}
    {wp : Option (List String)} {c : Card}
    (hc : c ∈ (prepareWhiteCards n did wl wp).1) : c.deckId = did := by
  cases wl with
  | none => simp [prepareWhiteCards] at hc
  | some l =>
    cases wp with
    | none => simp [prepareWhiteCards] at hc
    | some pool =>
      simp only [prepareWhiteCards] at hc
      obtain ⟨ji, _, hji⟩ := List.mem_filterMap.1 hc
      by_cases hb : 0 ≤ ji.2 ∧ ji.2 < (pool.length : Int)
      · rw [if_pos hb] at hji
        obtain rfl := Option.some_injective _ hji
        rfl
      · rw [if_neg hb] at hji; exact absurd hji (by simp)

theorem mem_prepareBlackCards_deckId {n : String} {did : Int} {bl : Option (List Int)}
    {bp : Option (List BlackCardData)} {c : Card}
    (hc : c ∈ (prepareBlackCards n did bl bp).1) : c.deckId = did := by
  cases bl with
  | none => simp [prepareBlackCards] at hc
  | some l =>
    cases bp with
    | none => simp [prepareBlackCards] at hc
    | some pool =>
      simp only [prepareBlackCards] at hc
      obtain ⟨ji, _, hji⟩ := List.mem_filterMap.1 hc
      by_cases hb : 0 ≤ ji.2 ∧ ji.2 < (pool.length : Int)
      · rw [if_pos hb] at hji
        obtain rfl := Option.some_injective _ hji
        rfl
      · rw [if_neg hb] at hji; exact absurd hji (by simp)

theorem mem_prepareDeckCards_deckId {dw : Option (List String)}
    {db : Option (List BlackCardData)} {kv : String × DeckData} {c : Card}
    (hc : c ∈ (prepareDeckCards dw db kv).1) : c.deckId = kv.2.id := by
  rcases List.mem_append.1 hc with h | h
  · exact mem_prepareWhiteCards_deckId h
  · exact mem_prepareBlackCards_deckId h

theorem cardBatchStep_foldl_error (batchRes : Nat → Option DBError) (e : DBError) :
    ∀ chunks : List (Nat × List Card),
      chunks.foldl (cardBatchStep batchRes) (.error e) = .error e := by
  intro chunks
  induction chunks with
  | nil => rfl
  | cons c cs ih => simp only [List.foldl_cons, cardBatchStep]; exact ih

theorem cardPhase_foldl_events (batchRes : Nat → Option DBError) :
    ∀ (chunks : List (Nat × List Card)) (acc : List Card × List Event),
      (∀ ev ∈ acc.2, ev.isCardBatchInsert = true) →
      ∀ rows evs, chunks.foldl (cardBatchStep batchRes) (.ok acc) = .ok (rows, evs) →
        ∀ ev ∈ evs, ev.isCardBatchInsert = true := by
  intro chunks
  induction chunks with
  | nil =>
    intro acc hacc rows evs h ev hev
    simp only [List.foldl_nil] at h
    obtain ⟨rfl, rfl⟩ : acc.1 = rows ∧ acc.2 = evs := by
      cases acc; simpa using h
    exact hacc ev hev
  | cons kchunk chunks ih =>
    intro acc hacc rows evs h ev hev
    obtain ⟨r, es⟩ := acc
    simp only [List.foldl_cons] at h
    cases hbr : batchRes kchunk.1 with
    | some e =>
      have hstep : cardBatchStep batchRes (.ok (r, es)) kchunk = .error e := by
        simp [cardBatchStep, hbr]
      rw [hstep, cardBatchStep_foldl_error] at h
      exact absurd h (by simp)
    | none =>
      have hstep : cardBatchStep batchRes (.ok (r, es)) kchunk =
          .ok (r ++ kchunk.2, es ++ [.cardBatchInsert kchunk.2]) := by
        simp [cardBatchStep, hbr]
      rw [hstep] at h
      refine ih _ ?_ rows evs h ev hev
      intro ev2 hev2
      rcases List.mem_append.1 hev2 with h1 | h1
      · exact hacc ev2 h1
      · simp at h1; rw [h1]; rfl

theorem cardPhase_events {cards : List Card} {batchRes : Nat → Option DBError}
    {rows : List Card} {evs : List Event}
    (h : cardPhase cards batchRes = .ok (rows, evs)) :
    ∀ ev ∈ evs, ev.isCardBatchInsert = true := by
  exact cardPhase_foldl_events batchRes _ ([], []) (by simp) rows evs h

theorem cardPhase_nil (batchRes : Nat → Option DBError) :
    cardPhase [] batchRes = .ok ([], []) := rfl

/-- How `insertDataTrx` fails: with the deck phase's first fatal error,
or, when the deck phase resolves, with a card-batch rejection. -/
theorem insertDataTrx_error_iff (init : DB) (data : CardData)
    (deckRes batchRes : Nat → Option DBError) (e : DBError) :
    insertDataTrx init data deckRes batchRes = .error e ↔
      deckFatalError data.metadata deckRes = some e ∨
      (deckFatalError data.metadata deckRes = none ∧
        cardPhase (prepareAllCards data).1 batchRes = .error e) := by
  unfold insertDataTrx deckPhase
  cases hf : deckFatalError data.metadata deckRes with
  | some e2 =>
    simp only [Bind.bind, Except.bind]
    constructor
    · intro h
      cases h
      exact Or.inl rfl
    · rintro (h | ⟨h, _⟩)
      · obtain rfl := Option.some_injective _ h
        rfl
      · exact absurd h (by simp)
  | none =>
    simp only [Bind.bind, Except.bind]
    cases hc : cardPhase (prepareAllCards data).1 batchRes with
    | error e2 =>
      constructor
      · intro h
        cases h
        exact Or.inr (by simp)
      · rintro (h | ⟨_, h⟩)
        · exact absurd h (by simp)
        · rw [show e2 = e from by cases h; rfl]
    | ok v =>
      constructor
      · intro h
        exact absurd h (by simp [Pure.pure, Except.pure])
      · rintro (h | ⟨_, h⟩)
        · exact absurd h (by simp)
        · exact absurd h (by simp)

/-! ## Claim C5 -/

/-- C5: on any fatal failure — whether thrown by the deck phase or by a
card batch — the transaction rolls back and the visible state equals the
initial state: no Deck or Card row written during the run remains. -/
theorem spec_C5_atomic_rollback :
    ∀ (init : DB) (data : CardData) (deckRes batchRes : Nat → Option DBError)
      (e : DBError),
      (insertData init data deckRes batchRes).2 = .error e →
      (insertData init data deckRes batchRes).1 = init := by
  intro init data deckRes batchRes e h
  unfold insertData at h ⊢
  cases htrx : insertDataTrx init data deckRes batchRes with
  | ok v =>
    rw [htrx] at h
    obtain ⟨db', ws, evs⟩ := v
    exact absurd h (by simp)
  | error e2 => rfl

/-- Witness for C5: a run whose single deck insert is rejected with an
unclassified error ends with the state unchanged. -/
theorem spec_C5_atomic_rollback_witness :
    (insertData ⟨[], []⟩
        ⟨some ["Bananas"], some [], [("1", DeckData.mk 1 "Base" true (some [0]) (some []))]⟩
        (fun _ => some ⟨none, none⟩) (fun _ => none)).1 = ⟨[], []⟩ :=
  spec_C5_atomic_rollback ⟨[], []⟩
    ⟨some ["Bananas"], some [], [("1", DeckData.mk 1 "Base" true (some [0]) (some []))]⟩
    (fun _ => some ⟨none, none⟩) (fun _ => none) ⟨none, none⟩ rfl

/-! ## Claim C6 -/

/-- C6: during deck insertion, a rejection classified as a
uniqueness/primary-key conflict is downgraded to a skip-warning and
processing continues — when every rejection is conflict-classified the
phase resolves, with exactly the non-rejected rows inserted, a conflict
warning per skipped row, and every attempt still issued — whereas a single
rejection that is not conflict-classified makes the whole unit of work
fail. -/
theorem spec_C6_conflict_downgrade :
    ∀ (init : DB) (dw : Option (List String)) (db : Option (List BlackCardData))
      (metadata : List (String × DeckData)) (deckRes batchRes : Nat → Option DBError),
      ((∀ k, k < metadata.length → ∀ e, deckRes k = some e → isConflictError e = true) →
        deckPhase metadata deckRes = .ok (deckRowsInserted metadata deckRes,
          mismatchWarnings metadata ++ conflictWarnings metadata deckRes,
          deckAttemptEvents metadata)) ∧
      (∀ k kv e, metadata.get? k = some kv → deckRes k = some e →
        isConflictError e = true →
        Warning.rowConflict kv.2.id kv.2.name ∈ conflictWarnings metadata deckRes) ∧
      (∀ k e, k < metadata.length → deckRes k = some e → isConflictError e = false →
        ∃ e2, insertDataTrx init ⟨dw, db, metadata⟩ deckRes batchRes = .error e2) := by
  intro init dw db metadata deckRes batchRes
  refine ⟨?_, ?_, ?_⟩
  · intro hall
    unfold deckPhase
    have hnone : deckFatalError metadata deckRes = none := by
      unfold deckFatalError
      rw [List.filterMap_eq_nil.2]
      · rfl
      · intro kkv hkkv
        have hk : kkv.1 < metadata.length := by
          have := List.mem_enum_iff_getElem?.1 hkkv
          exact (List.getElem?_eq_some.1 this).1
        cases hd : deckRes kkv.1 with
        | none => rfl
        | some e => simp [hall kkv.1 hk e hd]
    rw [hnone]
  · intro k kv e hget hres hconf
    unfold conflictWarnings
    refine List.mem_filterMap.2 ⟨(k, kv), ?_, ?_⟩
    · exact List.mk_mem_enum_iff_get?.mpr hget
    · simp [hres, hconf]
  · intro k e hk hres hconf
    have hget : metadata.get? k = some (metadata.get ⟨k, hk⟩) := List.get?_eq_get hk
    have hmem : e ∈ metadata.enum.filterMap (fun kkv =>
        match deckRes kkv.1 with
        | some e => if isConflictError e then none else some e
        | none => none) :=
      List.mem_filterMap.2 ⟨(k, metadata.get ⟨k, hk⟩),
        List.mk_mem_enum_iff_get?.mpr hget, by simp [hres, hconf]⟩
    have hne : metadata.enum.filterMap (fun kkv =>
        match deckRes kkv.1 with
        | some e => if isConflictError e then none else some e
        | none => none) ≠ [] := by
      intro h0; rw [h0] at hmem; exact absurd hmem (by simp)
    obtain ⟨e2, he2⟩ : ∃ e2, deckFatalError metadata deckRes = some e2 := by
      unfold deckFatalError
      exact ⟨_, List.head?_eq_head hne⟩
    exact ⟨e2, (insertDataTrx_error_iff init ⟨dw, db, metadata⟩ deckRes batchRes e2).2
      (Or.inl he2)⟩

/-- Witness for C6: a conflict-classified rejection (`SQLITE_CONSTRAINT`)
is downgraded — the phase resolves with a skip warning — while an
unclassified rejection makes the run fail. -/
theorem spec_C6_conflict_downgrade_witness :
    (deckPhase [("1", DeckData.mk 1 "Base" true none none)]
        (fun _ => some ⟨some "SQLITE_CONSTRAINT", none⟩) =
      .ok (deckRowsInserted [("1", DeckData.mk 1 "Base" true none none)]
          (fun _ => some ⟨some "SQLITE_CONSTRAINT", none⟩),
        mismatchWarnings [("1", DeckData.mk 1 "Base" true none none)] ++
          conflictWarnings [("1", DeckData.mk 1 "Base" true none none)]
            (fun _ => some ⟨some "SQLITE_CONSTRAINT", none⟩),
        deckAttemptEvents [("1", DeckData.mk 1 "Base" true none none)])) ∧
    Warning.rowConflict 1 "Base" ∈
      conflictWarnings [("1", DeckData.mk 1 "Base" true none none)]
        (fun _ => some ⟨some "SQLITE_CONSTRAINT", none⟩) ∧
    ∃ e2, insertDataTrx ⟨[], []⟩ ⟨none, none, [("1", DeckData.mk 1 "Base" true none none)]⟩
        (fun _ => some ⟨none, none⟩) (fun _ => none) = .error e2 := by
  refine ⟨?_, ?_, ?_⟩
  · exact (spec_C6_conflict_downgrade ⟨[], []⟩ none none
      [("1", DeckData.mk 1 "Base" true none none)]
      (fun _ => some ⟨some "SQLITE_CONSTRAINT", none⟩) (fun _ => none)).1
      (fun k hk e he => by injection he with h2; rw [← h2]; rfl)
  · exact (spec_C6_conflict_downgrade ⟨[], []⟩ none none
      [("1", DeckData.mk 1 "Base" true none none)]
      (fun _ => some ⟨some "SQLITE_CONSTRAINT", none⟩) (fun _ => none)).2.1
      0 ("1", DeckData.mk 1 "Base" true none none) ⟨some "SQLITE_CONSTRAINT", none⟩
      rfl rfl rfl
  · exact (spec_C6_conflict_downgrade ⟨[], []⟩ none none
      [("1", DeckData.mk 1 "Base" true none none)]
      (fun _ => some ⟨none, none⟩) (fun _ => none)).2.2
      0 ⟨none, none⟩ (by simp) rfl rfl

/-! ## Claim C7 -/

theorem mem_prepareAllCards_deckId (data : CardData) (c : Card)
    (hc : c ∈ (prepareAllCards data).1) :
    ∃ kv, kv ∈ data.metadata ∧ c.deckId = kv.2.id := by
  unfold prepareAllCards at hc
  simp only at hc
  obtain ⟨l, hl, hcl⟩ := List.mem_flatten.1 hc
  obtain ⟨pair, hpair, rfl⟩ := List.mem_map.1 hl
  obtain ⟨kv, hkv, rfl⟩ := List.mem_map.1 hpair
  exact ⟨kv, hkv, mem_prepareDeckCards_deckId hcl⟩

/-- C7: in a resolved run the issued statements are all the deck insert
attempts followed by all the card batches — no card row is inserted before
every deck insert attempt has resolved — and every prepared card's
`deckId` is the `id` of a deck spec of the same input document. -/
theorem spec_C7_decks_before_cards :
    ∀ (init : DB) (data : CardData) (deckRes batchRes : Nat → Option DBError)
      (db2 : DB) (ws : List Warning) (evs : List Event),
      insertDataTrx init data deckRes batchRes = .ok (db2, ws, evs) →
      (∃ A B, evs = A ++ B ∧ (∀ ev ∈ A, ev.isDeckInsert = true) ∧
        (∀ ev ∈ B, ev.isCardBatchInsert = true)) ∧
      (∀ c ∈ (prepareAllCards data).1, ∃ kv, kv ∈ data.metadata ∧
        c.deckId = kv.2.id) := by
  intro init data deckRes batchRes db2 ws evs h
  refine ⟨?_, fun c hc => mem_prepareAllCards_deckId data c hc⟩
  unfold insertDataTrx deckPhase at h
  cases hf : deckFatalError data.metadata deckRes with
  | some e =>
    rw [hf] at h
    exact absurd h (by simp [Bind.bind, Except.bind])
  | none =>
    rw [hf] at h
    simp only [Bind.bind, Except.bind] at h
    cases hc : cardPhase (prepareAllCards data).1 batchRes with
    | error e =>
      rw [hc] at h
      exact absurd h (by simp)
    | ok v =>
      obtain ⟨rows2, evs2⟩ := v
      rw [hc] at h
      simp only [Pure.pure, Except.pure, Except.ok.injEq, Prod.mk.injEq] at h
      obtain ⟨-, -, hevs⟩ := h
      refine ⟨deckAttemptEvents data.metadata, evs2, hevs.symm, ?_, ?_⟩
      · intro ev hev
        obtain ⟨kv, _, rfl⟩ := List.mem_map.1 hev
        rfl
      · exact cardPhase_events hc

/-- Witness for C7, at the spec's end-to-end example document with a
driver that resolves everything. -/
theorem spec_C7_decks_before_cards_witness :
    (∃ A B, ([Event.deckInsert (DeckRow.mk 1 "Base" true)] : List Event) = A ++ B ∧
      (∀ ev ∈ A, ev.isDeckInsert = true) ∧ (∀ ev ∈ B, ev.isCardBatchInsert = true)) ∧
    (∀ c ∈ (prepareAllCards ⟨some [], some [],
        [("1", DeckData.mk 1 "Base" true (some []) (some []))]⟩).1,
      ∃ kv, kv ∈ ([("1", DeckData.mk 1 "Base" true (some []) (some []))] :
          List (String × DeckData)) ∧ c.deckId = kv.2.id) :=
  spec_C7_decks_before_cards ⟨[], []⟩
    ⟨some [], some [], [("1", DeckData.mk 1 "Base" true (some []) (some []))]⟩
    (fun _ => none) (fun _ => none)
    ⟨[DeckRow.mk 1 "Base" true], []⟩ [] [Event.deckInsert (DeckRow.mk 1 "Base" true)]
    rfl

/-! ## Claim C8 -/

/-- C8: when the transformer produced zero cards the card-insertion step is
skipped entirely — failure can only come from the deck phase, and when the
deck phase resolves the run completes with no card batch issued and the
card table untouched, whatever the batch driver would have answered. -/
theorem spec_C8_zero_cards :
    ∀ (init : DB) (data : CardData) (deckRes batchRes : Nat → Option DBError),
      (prepareAllCards data).1 = [] →
      ((∀ e, insertDataTrx init data deckRes batchRes = .error e →
          deckFatalError data.metadata deckRes = some e) ∧
       (deckFatalError data.metadata deckRes = none →
          insertDataTrx init data deckRes batchRes =
            .ok (⟨init.decks ++ deckRowsInserted data.metadata deckRes, init.cards⟩,
              (mismatchWarnings data.metadata ++ conflictWarnings data.metadata deckRes) ++
                (prepareAllCards data).2,
              deckAttemptEvents data.metadata))) := by
  intro init data deckRes batchRes hzero
  constructor
  · intro e he
    rcases (insertDataTrx_error_iff init data deckRes batchRes e).1 he with h | ⟨_, h⟩
    · exact h
    · rw [hzero, cardPhase_nil] at h
      exact absurd h (by simp)
  · intro hnone
    unfold insertDataTrx deckPhase
    rw [hnone]
    have hpair : prepareAllCards data = ([], (prepareAllCards data).2) :=
      Prod.ext hzero rfl
    rw [hpair]
    simp only [Bind.bind, Except.bind, cardPhase_nil]
    simp [Pure.pure, Except.pure]

/-- Witness for C8: a document whose only deck has an absent white list
and an absent black pool produces zero cards; the run completes even
against a batch driver that would reject everything. -/
theorem spec_C8_zero_cards_witness :
    insertDataTrx ⟨[], []⟩ ⟨some ["Bananas"], none, [("1", DeckData.mk 1 "Base" true none (some [0]))]⟩
        (fun _ => none) (fun _ => some ⟨none, none⟩) =
      .ok (⟨[] ++ deckRowsInserted [("1", DeckData.mk 1 "Base" true none (some [0]))] (fun _ => none), []⟩,
        (mismatchWarnings [("1", DeckData.mk 1 "Base" true none (some [0]))] ++
          conflictWarnings [("1", DeckData.mk 1 "Base" true none (some [0]))] (fun _ => none)) ++
          (prepareAllCards ⟨some ["Bananas"], none, [("1", DeckData.mk 1 "Base" true none (some [0]))]⟩).2,
        deckAttemptEvents [("1", DeckData.mk 1 "Base" true none (some [0]))]) :=
  (spec_C8_zero_cards ⟨[], []⟩
    ⟨some ["Bananas"], none, [("1", DeckData.mk 1 "Base" true none (some [0]))]⟩
    (fun _ => none) (fun _ => some ⟨none, none⟩) rfl).2 rfl

/-! ## Claim C9 -/

/-- A metadata map with every key replaced by the canonical text of its
deck's `id`. -/
def keyNormalize (metadata : List (String × DeckData)) : List (String × DeckData) :=
  metadata.map (fun kv => (toString kv.2.id, kv.2))

theorem deckFatalError_keyNormalize (metadata : List (String × DeckData))
    (deckRes : Nat → Option DBError) :
    deckFatalError (keyNormalize metadata) deckRes = deckFatalError metadata deckRes := by
  unfold deckFatalError keyNormalize
  rw [List.enum_map, List.filterMap_map]
  rfl

theorem prepareAllCards_keyNormalize (dw : Option (List String))
    (db : Option (List BlackCardData)) (metadata : List (String × DeckData)) :
    prepareAllCards ⟨dw, db, keyNormalize metadata⟩ = prepareAllCards ⟨dw, db, metadata⟩ := by
  unfold prepareAllCards keyNormalize
  simp only [List.map_map]
  rfl

/-- C9 (counterexample to the claim as stated): for metadata key `"01"`
with deck id `1`, the key does not equal the id rendered as text, yet the
run emits no warning at all — the code compares `parseInt(key, 10)` with
the id, and `parseInt("01", 10) = 1`. -/
theorem spec_C9_counterexample :
    "01" ≠ toString (1 : Int) ∧
    insertDataTrx ⟨[], []⟩
        ⟨some [], some [], [("01", DeckData.mk 1 "Base" true (some []) (some []))]⟩
        (fun _ => none) (fun _ => none) =
      .ok (⟨[DeckRow.mk 1 "Base" true], []⟩, [],
        [Event.deckInsert (DeckRow.mk 1 "Base" true)]) := by
  exact ⟨by decide, rfl⟩

/-- C9 (amended): when `parseInt(key, 10)` differs from `DeckSpec.id`
(in particular for every non-numeric key) a non-fatal key-mismatch warning
is emitted; in all cases the load uses `DeckSpec.id` as the authoritative
identifier — the attempted Deck row and all of the deck's cards carry it —
and the choice of keys never affects whether the run fails.  (A key that
differs textually but parses to the id, such as `"01"` for id 1, produces
no warning.) -/
theorem spec_C9_key_mismatch_policy :
    ∀ (init : DB) (dw : Option (List String)) (db : Option (List BlackCardData))
      (metadata : List (String × DeckData)) (deckRes batchRes : Nat → Option DBError)
      (key : String) (d : DeckData),
      (key, d) ∈ metadata →
      ((parseIntJS key ≠ some d.id →
          Warning.keyMismatch key d.id ∈ mismatchWarnings metadata) ∧
       Event.deckInsert (deckRowOf d) ∈ deckAttemptEvents metadata ∧
       (∀ c ∈ (prepareDeckCards dw db (key, d)).1, c.deckId = d.id) ∧
       (∀ e, insertDataTrx init ⟨dw, db, metadata⟩ deckRes batchRes = .error e ↔
          insertDataTrx init ⟨dw, db, keyNormalize metadata⟩ deckRes batchRes =
            .error e)) := by
  intro init dw db metadata deckRes batchRes key d hmem
  refine ⟨?_, ?_, ?_, ?_⟩
  · intro hne
    unfold mismatchWarnings
    refine List.mem_filterMap.2 ⟨(key, d), hmem, ?_⟩
    rw [if_neg hne]
  · exact List.mem_map.2 ⟨(key, d), hmem, rfl⟩
  · intro c hc
    exact mem_prepareDeckCards_deckId hc
  · intro e
    rw [insertDataTrx_error_iff, insertDataTrx_error_iff]
    show _ ↔ deckFatalError (keyNormalize metadata) deckRes = some e ∨
      (deckFatalError (keyNormalize metadata) deckRes = none ∧
        cardPhase (prepareAllCards ⟨dw, db, keyNormalize metadata⟩).1 batchRes = .error e)
    rw [deckFatalError_keyNormalize, prepareAllCards_keyNormalize]

/-- Witness for C9 (amended): a non-numeric key `"x"` for deck id 1 yields
the key-mismatch warning, and the deck attempt carries the deck's own id. -/
theorem spec_C9_key_mismatch_policy_witness :
    Warning.keyMismatch "x" 1 ∈
      mismatchWarnings [("x", DeckData.mk 1 "Base" true none none)] ∧
    Event.deckInsert (deckRowOf (DeckData.mk 1 "Base" true none none)) ∈
      deckAttemptEvents [("x", DeckData.mk 1 "Base" true none none)] := by
  have h := spec_C9_key_mismatch_policy ⟨[], []⟩ none none
    [("x", DeckData.mk 1 "Base" true none none)] (fun _ => none) (fun _ => none)
    "x" (DeckData.mk 1 "Base" true none none) (by simp)
  exact ⟨h.1 (by decide), h.2.1⟩

/-! ## Claim C2: distinctness of the UUID name strings

The name string hashed for a card is
`deckName ++ "_" ++ tag ++ "_" ++ digits ++ "_" ++ prefix` with
`tag ∈ {"white", "black"}`, `digits` a nonempty decimal numeral and
`prefix` of at most 7 characters.  We prove this encoding injective in the
four components.  The deck name may itself contain underscores, so the
proof analyses where a second parse's `"_tag_"` could fall inside the
first parse's tail. -/

/-- Splitting a list equation at a `'_'` that neither prefix contains. -/
theorem no_underscore_append_split :
    ∀ (P1 P2 T1 T2 : List Char), (∀ c ∈ P1, c ≠ '_') → (∀ c ∈ P2, c ≠ '_') →
      P1 ++ '_' :: T1 = P2 ++ '_' :: T2 → P1 = P2 ∧ T1 = T2 := by
  intro P1
  induction P1 with
  | nil =>
    intro P2 T1 T2 _ hP2 h
    cases P2 with
    | nil => simpa using h
    | cons b P2' =>
      simp only [List.nil_append, List.cons_append, List.cons.injEq] at h
      exact absurd h.1.symm (hP2 b (by simp))
  | cons a P1' ih =>
    intro P2 T1 T2 hP1 hP2 h
    cases P2 with
    | nil =>
      simp only [List.nil_append, List.cons_append, List.cons.injEq] at h
      exact absurd h.1 (hP1 a (by simp))
    | cons b P2' =>
      simp only [List.cons_append, List.cons.injEq] at h
      obtain ⟨rfl, h2⟩ := h
      obtain ⟨rfl, rfl⟩ := ih P2' T1 T2 (fun c hc => hP1 c (by simp [hc]))
        (fun c hc => hP2 c (by simp [hc])) h2
      exact ⟨rfl, rfl⟩

/-- The white/black tag as characters. -/
def tagChars (g : List Char) : Prop :=
  g = ['w', 'h', 'i', 't', 'e'] ∨ g = ['b', 'l', 'a', 'c', 'k']

theorem tagChars_length {g : List Char} (hg : tagChars g) : g.length = 5 := by
  rcases hg with rfl | rfl <;> rfl

theorem tagChars_not_underscore {g : List Char} (hg : tagChars g) :
    ∀ c ∈ g, c ≠ '_' := by
  rcases hg with rfl | rfl <;> decide

theorem tagChars_head_not_digit {g : List Char} (hg : tagChars g) :
    ∀ c cs, g = c :: cs → c.isDigit = false := by
  rcases hg with rfl | rfl <;> (intro c cs h; cases h; decide)

/-- No shifted reparse: the tail of a name string, read again from a
strictly later underscore, cannot have the shape of a name-string tail. -/
theorem name_tail_no_overlap :
    ∀ (g1 g2 P1 P2 T1 T2 m' : List Char),
      tagChars g1 → tagChars g2 →
      P1 ≠ [] → (∀ c ∈ P1, c.isDigit = true) →
      P2 ≠ [] →
      T1.length ≤ 7 →
      g1 ++ '_' :: (P1 ++ '_' :: T1) = m' ++ '_' :: (g2 ++ '_' :: (P2 ++ '_' :: T2)) →
      False := by
  intro g1 g2 P1 P2 T1 T2 m' hg1 hg2 hP1ne hP1d hP2ne hT1 h
  have hYlen : ('_' :: (g2 ++ '_' :: (P2 ++ '_' :: T2))).length ≥ 9 := by
    simp only [List.length_cons, List.length_append, tagChars_length hg2]
    have : P2.length ≥ 1 := List.length_pos.2 hP2ne
    omega
  rcases List.append_eq_append_iff.1 h with ⟨u, hm', hX⟩ | ⟨u, hg1e, hY⟩
  · -- m' = g1 ++ u and '_' :: (P1 ++ '_' :: T1) = u ++ '_' :: (g2 ++ ...)
    cases u with
    | nil =>
      simp only [List.nil_append, List.cons.injEq] at hX
      -- P1 ++ '_' :: T1 = g2 ++ '_' :: (P2 ++ '_' :: T2)
      obtain ⟨q, P1', rfl⟩ : ∃ q P1', P1 = q :: P1' := by
        cases P1 with
        | nil => exact absurd rfl hP1ne
        | cons q P1' => exact ⟨q, P1', rfl⟩
      rcases hg2 with rfl | rfl <;>
        (simp only [List.cons_append, List.cons.injEq] at hX
         have hq := hP1d q (by simp)
         rw [hX.2.1] at hq
         simp at hq)
    | cons y u' =>
      simp only [List.cons_append, List.cons.injEq] at hX
      obtain ⟨rfl, hX2⟩ := hX
      -- P1 ++ '_' :: T1 = u' ++ '_' :: (g2 ++ '_' :: (P2 ++ '_' :: T2))
      rcases List.append_eq_append_iff.1 hX2 with ⟨v, hu', hv⟩ | ⟨v, hP1e, hv⟩
      · -- u' = P1 ++ v and '_' :: T1 = v ++ '_' :: (g2 ++ ...)
        cases v with
        | nil =>
          simp only [List.nil_append, List.cons.injEq] at hv
          have := congrArg List.length hv.2
          simp only [List.length_append, List.length_cons, tagChars_length hg2] at this
          have : P2.length ≥ 1 := List.length_pos.2 hP2ne
          omega
        | cons z v' =>
          simp only [List.cons_append, List.cons.injEq] at hv
          have := congrArg List.length hv.2
          simp only [List.length_append] at this
          have hY' := hYlen
          simp only [List.length_cons] at hY' ⊢
          omega
      · -- P1 = u' ++ v and '_' :: (g2 ++ ...) = v ++ '_' :: T1
        cases v with
        | nil =>
          simp only [List.nil_append, List.cons.injEq] at hv
          have := congrArg List.length hv.2
          simp only [List.length_append, List.length_cons, tagChars_length hg2] at this
          have : P2.length ≥ 1 := List.length_pos.2 hP2ne
          omega
        | cons z v' =>
          simp only [List.cons_append, List.cons.injEq] at hv
          have hz : z.isDigit = true := hP1d z (by rw [hP1e]; simp)
          rw [← hv.1] at hz
          simp at hz
  · -- g1 = m' ++ u and '_' :: (g2 ++ ...) = u ++ '_' :: (P1 ++ '_' :: T1)
    cases u with
    | nil =>
      simp only [List.nil_append, List.cons.injEq] at hY
      -- g2 ++ '_' :: (P2 ++ '_' :: T2) = P1 ++ '_' :: T1
      have := congrArg List.length hY.2
      simp only [List.length_append, List.length_cons, tagChars_length hg2] at this
      have h1 : P2.length ≥ 1 := List.length_pos.2 hP2ne
      -- left side too long to fit: it ends with T1 of length ≤ 7 after P1's digits
      obtain ⟨q, P1', rfl⟩ : ∃ q P1', P1 = q :: P1' := by
        cases P1 with
        | nil => exact absurd rfl hP1ne
        | cons q P1' => exact ⟨q, P1', rfl⟩
      rcases hg2 with rfl | rfl <;>
        (simp only [List.cons_append, List.cons.injEq] at hY
         have hq := hP1d q (by simp)
         rw [← hY.2.1] at hq
         simp at hq)
    | cons z u' =>
      simp only [List.cons_append, List.cons.injEq] at hY
      have hz : z ∈ g1 := by rw [hg1e]; simp
      exact absurd hY.1.symm (tagChars_not_underscore hg1 z hz)

/-- Injectivity of the name-string encoding at the character level. -/
theorem nameChars_injective :
    ∀ (d1 d2 g1 g2 P1 P2 T1 T2 : List Char),
      tagChars g1 → tagChars g2 →
      P1 ≠ [] → (∀ c ∈ P1, c.isDigit = true) →
      P2 ≠ [] → (∀ c ∈ P2, c.isDigit = true) →
      T1.length ≤ 7 → T2.length ≤ 7 →
      d1 ++ '_' :: (g1 ++ '_' :: (P1 ++ '_' :: T1)) =
        d2 ++ '_' :: (g2 ++ '_' :: (P2 ++ '_' :: T2)) →
      d1 = d2 ∧ g1 = g2 ∧ P1 = P2 ∧ T1 = T2 := by
  intro d1 d2 g1 g2 P1 P2 T1 T2 hg1 hg2 hP1ne hP1d hP2ne hP2d hT1 hT2 h
  have main : ∀ (G1 G2 Q1 Q2 S1 S2 : List Char), tagChars G1 → tagChars G2 →
      Q1 ≠ [] → (∀ c ∈ Q1, c.isDigit = true) → Q2 ≠ [] → (∀ c ∈ Q2, c.isDigit = true) →
      G1 ++ '_' :: (Q1 ++ '_' :: S1) = G2 ++ '_' :: (Q2 ++ '_' :: S2) →
      G1 = G2 ∧ Q1 = Q2 ∧ S1 = S2 := by
    intro G1 G2 Q1 Q2 S1 S2 hG1 hG2 hQ1ne hQ1d hQ2ne hQ2d heq
    obtain ⟨hG, hrest⟩ := List.append_inj heq
      (by rw [tagChars_length hG1, tagChars_length hG2])
    simp only [List.cons.injEq] at hrest
    obtain ⟨hQ, hS⟩ := no_underscore_append_split Q1 Q2 S1 S2
      (fun c hc => by have := hQ1d c hc; intro hc2; rw [hc2] at this; simp at this)
      (fun c hc => by have := hQ2d c hc; intro hc2; rw [hc2] at this; simp at this)
      hrest.2
    exact ⟨hG, hQ, hS⟩
  rcases List.append_eq_append_iff.1 h with ⟨u, hd2, hr⟩ | ⟨u, hd1, hr⟩
  · cases u with
    | nil =>
      rw [List.append_nil] at hd2
      simp only [List.nil_append, List.cons.injEq] at hr
      obtain ⟨hG, hQ, hS⟩ := main g1 g2 P1 P2 T1 T2 hg1 hg2 hP1ne hP1d hP2ne hP2d hr.2
      exact ⟨hd2.symm, hG, hQ, hS⟩
    | cons y u' =>
      simp only [List.cons_append, List.cons.injEq] at hr
      exact absurd hr.2 (fun hcontra =>
        name_tail_no_overlap g1 g2 P1 P2 T1 T2 u' hg1 hg2 hP1ne hP1d hP2ne hT1 hcontra)
  · cases u with
    | nil =>
      rw [List.append_nil] at hd1
      simp only [List.nil_append, List.cons.injEq] at hr
      obtain ⟨hG, hQ, hS⟩ := main g2 g1 P2 P1 T2 T1 hg2 hg1 hP2ne hP2d hP1ne hP1d hr.2
      exact ⟨hd1, hG.symm, hQ.symm, hS.symm⟩
    | cons y u' =>
      simp only [List.cons_append, List.cons.injEq] at hr
      exact absurd hr.2 (fun hcontra =>
        name_tail_no_overlap g2 g1 P2 P1 T2 T1 u' hg2 hg1 hP2ne hP2d hP1ne hT2 hcontra)

theorem uniqueNameString_data (d g : String) (p : Nat) (t : String) :
    (uniqueNameString d g p t).data =
      d.data ++ '_' :: (g.data ++ '_' ::
        (((natDigits p).map Nat.digitChar) ++ '_' :: t.data.take 7)) := by
  unfold uniqueNameString textPrefix7 natDecimal
  simp only [String.data_append, String.data_take]
  simp [List.append_assoc]

theorem digitChar_inj_lt_ten :
    ∀ a < 10, ∀ b < 10, Nat.digitChar a = Nat.digitChar b → a = b := by decide

theorem digitChar_isDigit : ∀ a < 10, (Nat.digitChar a).isDigit = true := by decide

theorem map_digitChar_inj :
    ∀ (l1 l2 : List Nat), (∀ d ∈ l1, d < 10) → (∀ d ∈ l2, d < 10) →
      l1.map Nat.digitChar = l2.map Nat.digitChar → l1 = l2 := by
  intro l1
  induction l1 with
  | nil =>
    intro l2 _ _ h
    cases l2 with
    | nil => rfl
    | cons b l2' => simp at h
  | cons a l1' ih =>
    intro l2 h1 h2 h
    cases l2 with
    | nil => simp at h
    | cons b l2' =>
      simp only [List.map_cons, List.cons.injEq] at h
      have ha := digitChar_inj_lt_ten a (h1 a (by simp)) b (h2 b (by simp)) h.1
      rw [ha, ih l2' (fun d hd => h1 d (by simp [hd])) (fun d hd => h2 d (by simp [hd])) h.2]

/-- C2 (amended): two cards that differ in deck name, color tag, position,
or text prefix (first 7 characters) are hashed from distinct UUID name
strings — the encoding of the four components into the name string is
injective.  Their identifiers therefore coincide only if SHA-1 collides on
two distinct inputs. -/
theorem spec_C2_name_string_distinct :
    ∀ (d1 d2 g1 g2 t1 t2 : String) (p1 p2 : Nat),
      (g1 = "white" ∨ g1 = "black") → (g2 = "white" ∨ g2 = "black") →
      uniqueNameString d1 g1 p1 t1 = uniqueNameString d2 g2 p2 t2 →
      d1 = d2 ∧ g1 = g2 ∧ p1 = p2 ∧ textPrefix7 t1 = textPrefix7 t2 := by
  intro d1 d2 g1 g2 t1 t2 p1 p2 hg1 hg2 h
  have hdata := congrArg String.data h
  rw [uniqueNameString_data, uniqueNameString_data] at hdata
  have htag1 : tagChars g1.data := by
    rcases hg1 with rfl | rfl
    · exact Or.inl rfl
    · exact Or.inr rfl
  have htag2 : tagChars g2.data := by
    rcases hg2 with rfl | rfl
    · exact Or.inl rfl
    · exact Or.inr rfl
  obtain ⟨hd, hg, hP, hT⟩ := nameChars_injective d1.data d2.data g1.data g2.data
    ((natDigits p1).map Nat.digitChar) ((natDigits p2).map Nat.digitChar)
    (t1.data.take 7) (t2.data.take 7)
    htag1 htag2
    (by simp [natDigits_ne_nil p1])
    (by
      intro c hc
      obtain ⟨a, ha, rfl⟩ := List.mem_map.1 hc
      exact digitChar_isDigit a (natDigits_lt_ten p1 a ha))
    (by simp [natDigits_ne_nil p2])
    (by
      intro c hc
      obtain ⟨a, ha, rfl⟩ := List.mem_map.1 hc
      exact digitChar_isDigit a (natDigits_lt_ten p2 a ha))
    (by simp)
    (by simp)
    hdata
  refine ⟨String.ext hd, String.ext hg, ?_, ?_⟩
  · exact natDigits_injective (map_digitChar_inj _ _ (natDigits_lt_ten p1)
      (natDigits_lt_ten p2) hP)
  · exact String.ext (by simpa [textPrefix7, String.data_take] using hT)

/-- Witness for the amended C2: two texts sharing their 7-character prefix
give, at equal deck / color / position, equal name strings, and the
theorem reports the agreement of all four components. -/
theorem spec_C2_name_string_distinct_witness :
    ("Base" : String) = "Base" ∧ ("white" : String) = "white" ∧ (0 : Nat) = 0 ∧
      textPrefix7 "Bananas!" = textPrefix7 "Bananassss" :=
  spec_C2_name_string_distinct "Base" "Base" "white" "white" "Bananas!" "Bananassss"
    0 0 (Or.inl rfl) (Or.inl rfl) (by decide)

/-- C2 (counterexample to the claim as stated): identifier distinctness
cannot hold for all positions — the identifiers live in a finite set (they
are determined by a 160-bit SHA-1 digest) while the positions are
unbounded, so by pigeonhole two distinct positions of the same deck, color
and text receive equal identifiers. -/
theorem spec_C2_counterexample :
    ¬ (∀ p1 p2 : Nat, cardIdOf "Base" "white" p1 "x" = cardIdOf "Base" "white" p2 "x" →
        p1 = p2) := by
  intro h
  obtain ⟨a, b, hne, heq⟩ := Finite.exists_ne_map_eq_of_infinite
    (fun p : Nat => (⟨sha1Nat (uuidv5Input (uniqueNameString "Base" "white" p "x")
        CARD_ID_NAMESPACE), sha1Nat_lt _⟩ : Fin (2 ^ 160)))
  apply hne
  apply h
  unfold cardIdOf uuidv5
  have hdg : sha1Nat (uuidv5Input (uniqueNameString "Base" "white" a "x")
      CARD_ID_NAMESPACE) =
      sha1Nat (uuidv5Input (uniqueNameString "Base" "white" b "x") CARD_ID_NAMESPACE) :=
    congrArg Fin.val heq
  rw [hdg]
